import Mathlib

/-!
Verification development for the MNT-Bench benchmark-distribution backend
(module `mnt/bench/backend.py`).

Python strings are modelled as `List Char` (`Str`), Python `bytes` contents as
`List Nat` (`Bytes`), pandas `DataFrame`s of parsed benchmark rows as
`List ParsedBenchmarkName` (a row list; `.loc`/boolean masks become
`List.filter`, `pd.concat` becomes `++`, and `drop_duplicates` becomes a
keep-first deduplication), and raised exceptions as `Except` errors.
-/

/-- Python `str` modelled as its character sequence. -/
abbrev Str := List Char

/-- Convert a Lean string literal into the `Str` model. -/
def str (s : String) : Str := s.data

/-- ASCII lower-casing of one character (codes 65-90 shift by 32); model of
Python `str.lower` on the ASCII alphabet used by all benchmark file names. -/
def pyLowerChar (c : Char) : Char :=
  if 65 ≤ c.toNat ∧ c.toNat ≤ 90 then Char.ofNat (c.toNat + 32) else c

/-- Model of Python `str.lower()`. -/
def pyLower (s : Str) : Str := s.map pyLowerChar

/-- Model of Python substring membership `p in l` (contiguous substring). -/
def containsSub (p : List Char) : List Char → Bool
  | [] => p.isEmpty
  | c :: rest => p.isPrefixOf (c :: rest) || containsSub p rest

/-- One record of the fixed benchmark-family tables built in
`Backend.__init__` (`{"name": ..., "id": ..., "filename": ...}`). -/
structure BenchRecord where
  name : Str
  id : Str
  filename : Str
deriving DecidableEq, Repr

/-- `Backend.trindade` from `mnt/bench/backend.py`. -/
def trindade : List BenchRecord :=
  [⟨str "Multiplexer 2:1", str "1", str "mux21"⟩,
   ⟨str "XOR 2:1", str "2", str "xor2"⟩,
   ⟨str "XNOR 2:1", str "3", str "xnor2"⟩,
   ⟨str "Half Adder", str "4", str "ha"⟩,
   ⟨str "Full Adder", str "5", str "fa"⟩,
   ⟨str "Parity Generator", str "6", str "par_gen"⟩,
   ⟨str "Parity Check", str "7", str "par_check"⟩]

/-- `Backend.fontes` from `mnt/bench/backend.py`. -/
def fontes : List BenchRecord :=
  [⟨str "t", str "8", str "t"⟩,
   ⟨str "t_5", str "9", str "t_5"⟩,
   ⟨str "b1_r2", str "10", str "b1_r2"⟩,
   ⟨str "majority", str "11", str "majority"⟩,
   ⟨str "majority_5_r1", str "12", str "majority_5_r1"⟩,
   ⟨str "newtag", str "13", str "newtag"⟩,
   ⟨str "clpl", str "14", str "clpl"⟩,
   ⟨str "1bitAdderAOIG", str "15", str "1bitadderaoig"⟩,
   ⟨str "1bitAdderMaj", str "16", str "1bitaddermaj"⟩,
   ⟨str "2bitAdderAOIG", str "17", str "2bitaddermaj"⟩,
   ⟨str "XOR5Maj", str "18", str "xor5maj"⟩,
   ⟨str "xor5_r1", str "19", str "xor5_r1"⟩,
   ⟨str "cm82a_5", str "20", str "cm82a_5"⟩,
   ⟨str "parity", str "21", str "parity"⟩]

/-- `Backend.iscas` from `mnt/bench/backend.py`. -/
def iscas : List BenchRecord :=
  [⟨str "c17", str "22", str "c17"⟩,
   ⟨str "c432", str "23", str "c432"⟩,
   ⟨str "c499", str "24", str "c499"⟩,
   ⟨str "c880", str "25", str "c880"⟩,
   ⟨str "c1355", str "26", str "c1355"⟩,
   ⟨str "c1908", str "27", str "c1908"⟩,
   ⟨str "c2670", str "28", str "c2670"⟩,
   ⟨str "c3540", str "29", str "c3540"⟩,
   ⟨str "c5315", str "30", str "c5315"⟩,
   ⟨str "c6288", str "31", str "c6288"⟩,
   ⟨str "c7552", str "32", str "c7552"⟩]

/-- `Backend.epfl` from `mnt/bench/backend.py`. -/
def epfl : List BenchRecord :=
  [⟨str "ctrl", str "33", str "ctrl"⟩,
   ⟨str "router", str "34", str "router"⟩,
   ⟨str "int2float", str "35", str "int2float"⟩,
   ⟨str "cavlc", str "36", str "cavlc"⟩,
   ⟨str "priority", str "37", str "priority"⟩,
   ⟨str "dec", str "38", str "dec"⟩,
   ⟨str "i2c", str "39", str "i2c"⟩,
   ⟨str "adder", str "40", str "adder"⟩,
   ⟨str "bar", str "41", str "bar"⟩,
   ⟨str "max", str "42", str "max"⟩,
   ⟨str "sin", str "43", str "sin"⟩]

/-- One entry of the optional `layout_dimensions.json` side-table
(`{width, height, size_uncompressed, size_compressed}` keyed by file name). -/
structure LayoutDims where
  x : Nat
  y : Nat
  size_uncompressed : Nat
  size_compressed : Nat
deriving DecidableEq, Repr

/-- The `ParsedBenchmarkName` dataclass of `mnt/bench/backend.py`.
Fields that Python fills with the empty string `""` instead of a number
(`x`, `y`, `area` when no dimensions are known) are modelled as `Option Nat`
with `none` standing for `""`. -/
structure ParsedBenchmarkName where
  benchmark : Str
  level : Str
  library : Str
  clocking_scheme : Str
  physical_design_algorithm : Str
  optimized : Str
  ordered : Str
  x : Option Nat
  y : Option Nat
  area : Option Nat
  size_uncompressed : Nat
  size_compressed : Nat
  filename : Str
deriving DecidableEq, Repr

/-- The `BenchmarkConfiguration` dataclass of `mnt/bench/backend.py`. -/
structure BenchmarkConfiguration where
  indices_benchmarks : List Int
  network : Bool
  gate : Bool
  one : Bool
  bestagon : Bool
  twoddwave : Bool
  use : Bool
  res : Bool
  esr : Bool
  row : Bool
  best : Bool
  exact : Bool
  ortho : Bool
  nanoplacer : Bool
  optimized : Bool
  ordered : Bool
deriving DecidableEq, Repr

/-- The mutable attributes of `Backend` relevant to the catalog:
`self.database` (`None` before `init_database`) and
`self.layout_dimensions` (single-key dicts modelled as key/value pairs). -/
structure Backend where
  database : Option (List ParsedBenchmarkName)
  layout_dimensions : List (Str × LayoutDims)
deriving DecidableEq, Repr

/-- Safe positional access to a family table (the Python code indexes only
under a bounds guard, so the default is never used there). -/
def nthFilename (l : List BenchRecord) (i : Nat) : Str :=
  ((l.get? i).map (fun r => r.filename)).getD []

/-- The benchmark-identifier resolution loop at the top of
`Backend.filter_database` (`mnt/bench/backend.py`, lines 144-157): each
identifier is checked against the cumulative bounds of the four family
tables and resolves to the corresponding `filename`; identifiers outside
every range are skipped. -/
def resolveBenchmarks : List Int → List Str
  | [] => []
  | identifier :: rest =>
    (if 1 ≤ identifier ∧ identifier ≤ (trindade.length : Int) then
      [nthFilename trindade (identifier - 1).toNat]
     else if 1 ≤ identifier ∧ identifier ≤ ((trindade.length : Int) + fontes.length) then
      [nthFilename fontes (identifier - 1 - trindade.length).toNat]
     else if 1 ≤ identifier ∧ identifier ≤ ((trindade.length : Int) + fontes.length + iscas.length) then
      [nthFilename iscas (identifier - 1 - trindade.length - fontes.length).toNat]
     else if 1 ≤ identifier ∧ identifier ≤ ((trindade.length : Int) + fontes.length + iscas.length + epfl.length) then
      [nthFilename epfl (identifier - 1 - trindade.length - fontes.length - iscas.length).toNat]
     else []) ++ resolveBenchmarks rest

/-- Accumulator loop for `dropDuplicates`: `acc` holds the rows already kept,
in reverse order. -/
def dropDuplicatesAux [DecidableEq α] : List α → List α → List α
  | [], acc => acc.reverse
  | x :: xs, acc => if x ∈ acc then dropDuplicatesAux xs acc else dropDuplicatesAux xs (x :: acc)

/-- Keep-first deduplication; model of `DataFrame.drop_duplicates()`
(rows are compared on all columns, the first occurrence is kept). -/
def dropDuplicates [DecidableEq α] (l : List α) : List α := dropDuplicatesAux l []

/-- `self.database[self.database["benchmark"].isin(selected_benchmarks)]`. -/
def benchmarkSelected (db : List ParsedBenchmarkName) (cfg : BenchmarkConfiguration) :
    List ParsedBenchmarkName :=
  db.filter (fun e => (resolveBenchmarks cfg.indices_benchmarks).contains e.benchmark)

/-- The clocking-scheme toggles translated to the scheme strings they request
(the spec's "requested set" of schemes). -/
def requestedSchemes (cfg : BenchmarkConfiguration) : List Str :=
  (if cfg.twoddwave then [str "2ddwave"] else []) ++
  (if cfg.use then [str "use"] else []) ++
  (if cfg.res then [str "res"] else []) ++
  (if cfg.esr then [str "esr"] else []) ++
  (if cfg.row then [str "row"] else [])

/-- The per-scheme accumulation `db_tmp_all_schemes` of
`Backend.filter_database` (lines 175-204): for each set toggle, the rows of
`db_filtered` with that clocking scheme are appended. -/
def schemeUnionOf (cfg : BenchmarkConfiguration) (dbf : List ParsedBenchmarkName) :
    List ParsedBenchmarkName :=
  let s : List ParsedBenchmarkName := []
  let s := if cfg.twoddwave then s ++ dbf.filter (fun e => e.clocking_scheme == str "2ddwave") else s
  let s := if cfg.use then s ++ dbf.filter (fun e => e.clocking_scheme == str "use") else s
  let s := if cfg.res then s ++ dbf.filter (fun e => e.clocking_scheme == str "res") else s
  let s := if cfg.esr then s ++ dbf.filter (fun e => e.clocking_scheme == str "esr") else s
  if cfg.row then s ++ dbf.filter (fun e => e.clocking_scheme == str "row") else s

/-- Lines 162-170 of `Backend.filter_database`: restrict to gate-level rows,
then (the two mutually exclusive `if`s) optionally restrict to a single
library; with both or neither library toggle the full gate-level set stays. -/
def gateLibFiltered (cfg : BenchmarkConfiguration) (db_tmp0 : List ParsedBenchmarkName) :
    List ParsedBenchmarkName :=
  let db_tmp := db_tmp0.filter (fun e => e.level == str "gate")
  let db_filtered := db_tmp
  let db_filtered := if cfg.one && !cfg.bestagon then
      db_tmp.filter (fun e => e.library == str "one") else db_filtered
  if !cfg.one && cfg.bestagon then
      db_tmp.filter (fun e => e.library == str "bestagon") else db_filtered

/-- Lines 209-225 of `Backend.filter_database`: successive narrowing of
`db_filtered` by the physical-design-algorithm toggles, with the nested
`optimized`/`ordered` filters of the `nanoplacer` and `ortho` branches. -/
def algoNarrowed (cfg : BenchmarkConfiguration) (dbf : List ParsedBenchmarkName) :
    List ParsedBenchmarkName :=
  let dbf := if cfg.exact then
      dbf.filter (fun e => e.physical_design_algorithm == str "exact")
    else dbf
  let dbf := if cfg.nanoplacer then
      let d := dbf.filter (fun e => e.physical_design_algorithm == str "nanoplacer")
      if cfg.optimized then d.filter (fun e => e.optimized == str "opt") else d
    else dbf
  if cfg.ortho then
      let d := dbf.filter (fun e => e.physical_design_algorithm == str "ortho")
      let d := if cfg.optimized then d.filter (fun e => e.optimized == str "opt") else d
      if cfg.ordered then d.filter (fun e => e.ordered == str "ord") else d
    else dbf

/-- The whole gate-level branch (lines 162-225) of `Backend.filter_database`:
library mask, then either the `best` filter or the scheme union (kept only if
non-empty) followed by the algorithm/optimized/ordered narrowing. -/
def gateFiltered (cfg : BenchmarkConfiguration) (db_tmp0 : List ParsedBenchmarkName) :
    List ParsedBenchmarkName :=
  if cfg.gate then
    if cfg.best then
      (gateLibFiltered cfg db_tmp0).filter (fun e => e.clocking_scheme == str "best")
    else
      let all_schemes := schemeUnionOf cfg (gateLibFiltered cfg db_tmp0)
      algoNarrowed cfg
        (if all_schemes.isEmpty then gateLibFiltered cfg db_tmp0 else all_schemes)
  else []

/-- `Backend.filter_database` of `mnt/bench/backend.py` (lines 127-230),
in state-passing form: the second component is the backend after the call
(no statement of the method assigns to `self`, which the returned state
makes explicit). An unloaded (`None`) or empty database short-circuits to
an empty result. -/
def filter_databaseS (b : Backend) (cfg : BenchmarkConfiguration) :
    List ParsedBenchmarkName × Backend :=
  match b.database with
  | none => ([], b)
  | some db =>
    if db.isEmpty then ([], b)
    else
      let db_tmp := benchmarkSelected db cfg
      let db_networks := db_tmp.filter (fun e => e.level == str "network")
      let db_filtered := gateFiltered cfg db_tmp
      let db_filtered := if cfg.network then db_filtered ++ db_networks else db_filtered
      (dropDuplicates db_filtered, b)

/-- Result list of `Backend.filter_database`. -/
def filter_database (b : Backend) (cfg : BenchmarkConfiguration) :
    List ParsedBenchmarkName :=
  (filter_databaseS b cfg).1

/-! ### Basic lemmas about the filter components -/

theorem mem_dropDuplicatesAux [DecidableEq α] (l acc : List α) (a : α) :
    a ∈ dropDuplicatesAux l acc ↔ a ∈ l ∨ a ∈ acc := by
  induction l generalizing acc with
  | nil => simp [dropDuplicatesAux]
  | cons x xs ih =>
    by_cases hx : x ∈ acc
    · simp only [dropDuplicatesAux, if_pos hx, ih, List.mem_cons]
      constructor
      · tauto
      · rintro (h | h)
        · rcases h with h | h
          · exact Or.inr (h ▸ hx)
          · tauto
        · tauto
    · simp only [dropDuplicatesAux, if_neg hx, ih, List.mem_cons]
      tauto

theorem mem_dropDuplicates [DecidableEq α] (l : List α) (a : α) :
    a ∈ dropDuplicates l ↔ a ∈ l := by
  simp [dropDuplicates, mem_dropDuplicatesAux]

theorem nodup_dropDuplicatesAux [DecidableEq α] (l : List α) (acc : List α)
    (hacc : acc.Nodup) : (dropDuplicatesAux l acc).Nodup := by
  induction l generalizing acc with
  | nil => simpa [dropDuplicatesAux] using hacc
  | cons x xs ih =>
    by_cases hx : x ∈ acc
    · rw [dropDuplicatesAux, if_pos hx]
      exact ih acc hacc
    · rw [dropDuplicatesAux, if_neg hx]
      exact ih (x :: acc) (List.nodup_cons.2 ⟨hx, hacc⟩)

theorem nodup_dropDuplicates [DecidableEq α] (l : List α) :
    (dropDuplicates l).Nodup :=
  nodup_dropDuplicatesAux l [] List.nodup_nil

theorem mem_schemeUnionOf {cfg : BenchmarkConfiguration}
    {dbf : List ParsedBenchmarkName} {e : ParsedBenchmarkName}
    (h : e ∈ schemeUnionOf cfg dbf) :
    e ∈ dbf ∧ e.clocking_scheme ∈ requestedSchemes cfg := by
  unfold schemeUnionOf requestedSchemes at *
  split_ifs at h ⊢ <;>
    simp_all [List.mem_append, List.mem_filter] <;> tauto

theorem mem_gateLibFiltered {cfg : BenchmarkConfiguration}
    {l : List ParsedBenchmarkName} {e : ParsedBenchmarkName}
    (h : e ∈ gateLibFiltered cfg l) : e ∈ l ∧ e.level = str "gate" := by
  unfold gateLibFiltered at h
  split_ifs at h <;> simp_all [List.mem_filter]

theorem mem_algoNarrowed {cfg : BenchmarkConfiguration}
    {l : List ParsedBenchmarkName} {e : ParsedBenchmarkName}
    (h : e ∈ algoNarrowed cfg l) : e ∈ l := by
  simp only [algoNarrowed] at h
  split_ifs at h <;> simp_all [List.mem_filter]

theorem mem_gateFiltered {cfg : BenchmarkConfiguration}
    {l : List ParsedBenchmarkName} {e : ParsedBenchmarkName}
    (h : e ∈ gateFiltered cfg l) : e ∈ l ∧ e.level = str "gate" := by
  simp only [gateFiltered] at h
  by_cases hg : cfg.gate
  · rw [if_pos hg] at h
    by_cases hb : cfg.best
    · rw [if_pos hb] at h
      exact mem_gateLibFiltered (List.mem_filter.1 h).1
    · rw [if_neg hb] at h
      have h2 := mem_algoNarrowed h
      by_cases he : (schemeUnionOf cfg (gateLibFiltered cfg l)).isEmpty
      · rw [if_pos he] at h2
        exact mem_gateLibFiltered h2
      · rw [if_neg he] at h2
        exact mem_gateLibFiltered (mem_schemeUnionOf h2).1
  · rw [if_neg hg] at h
    exact absurd h (List.not_mem_nil e)

theorem mem_resolve_of_selected {db : List ParsedBenchmarkName}
    {cfg : BenchmarkConfiguration} {e : ParsedBenchmarkName}
    (h : e ∈ benchmarkSelected db cfg) :
    e.benchmark ∈ resolveBenchmarks cfg.indices_benchmarks := by
  have h2 := (List.mem_filter.1 h).2
  simpa using h2

/-- Destructuring of a membership in the filter result: the row comes from the
benchmark-selected base set, via the gate-level branch or (with the network
toggle) the network-level rows. -/
theorem mem_filter_database {b : Backend} {cfg : BenchmarkConfiguration}
    {e : ParsedBenchmarkName} (h : e ∈ filter_database b cfg) :
    ∃ db, b.database = some db ∧
      e ∈ benchmarkSelected db cfg ∧
      (e ∈ gateFiltered cfg (benchmarkSelected db cfg) ∨
       (cfg.network = true ∧ e.level = str "network")) := by
  rcases hdb : b.database with _ | db
  · simp [filter_database, filter_databaseS, hdb] at h
  · refine ⟨db, rfl, ?_⟩
    simp only [filter_database, filter_databaseS, hdb] at h
    by_cases hemp : db.isEmpty
    · simp [hemp] at h
    · simp only [hemp, Bool.false_eq_true, if_false] at h
      rw [mem_dropDuplicates] at h
      by_cases hn : cfg.network
      · rw [if_pos hn] at h
        rcases List.mem_append.1 h with h | h
        · exact ⟨(mem_gateFiltered h).1, Or.inl h⟩
        · have := List.mem_filter.1 h
          refine ⟨this.1, Or.inr ⟨hn, ?_⟩⟩
          simpa using this.2
      · rw [if_neg hn] at h
        exact ⟨(mem_gateFiltered h).1, Or.inl h⟩

/-! ### Concrete inputs used by counterexamples and witnesses -/

/-- A gate-level `one`-library row clocked with `use`. -/
def c1Entry : ParsedBenchmarkName :=
  { benchmark := str "mux21", level := str "gate", library := str "one",
    clocking_scheme := str "use", physical_design_algorithm := str "exact",
    optimized := str "unopt", ordered := str "unord",
    x := none, y := none, area := none,
    size_uncompressed := 0, size_compressed := 0,
    filename := str "mux21_ONE_USE_exact_UnOpt_UnOrd.fgl" }

/-- A gate-level `one`-library row clocked with `2ddwave`. -/
def c1EntryW : ParsedBenchmarkName :=
  { benchmark := str "mux21", level := str "gate", library := str "one",
    clocking_scheme := str "2ddwave", physical_design_algorithm := str "exact",
    optimized := str "unopt", ordered := str "unord",
    x := none, y := none, area := none,
    size_uncompressed := 0, size_compressed := 0,
    filename := str "mux21_ONE_2DDWave_exact_UnOpt_UnOrd.fgl" }

/-- Selection: benchmark 1 (`mux21`), gate level, library `one`, scheme
toggle `2ddwave` only, `best` not requested. -/
def c1Config : BenchmarkConfiguration :=
  { indices_benchmarks := [1], network := false, gate := true, one := true,
    bestagon := false, twoddwave := true, use := false, res := false,
    esr := false, row := false, best := false, exact := false, ortho := false,
    nanoplacer := false, optimized := false, ordered := false }

/-- Catalog holding only the `use`-clocked row. -/
def c1Backend : Backend := { database := some [c1Entry], layout_dimensions := [] }

/-- Catalog holding the `2ddwave`-clocked row. -/
def c1BackendW : Backend := { database := some [c1EntryW], layout_dimensions := [] }

/-- C1 counterexample: with the `2ddwave` toggle set (and `best` unset) the
filter returns a gate-level `one`-library row clocked `use`, which lies
outside the claimed mask `library = one ∧ scheme ∈ requested` or
`library = bestagon ∧ scheme = row`: when no candidate matches any requested
scheme, lines 206-207 of `mnt/bench/backend.py` keep the unfiltered set. -/
theorem filter_scheme_mask_counterexample :
    c1Config.best = false ∧
    requestedSchemes c1Config = [str "2ddwave"] ∧
    filter_database c1Backend c1Config = [c1Entry] ∧
    c1Entry.level = str "gate" ∧
    ¬ ((c1Entry.library = str "one" ∧ c1Entry.clocking_scheme ∈ requestedSchemes c1Config) ∨
       (c1Entry.library = str "bestagon" ∧ c1Entry.clocking_scheme = str "row")) := by
  refine ⟨rfl, rfl, by decide, rfl, by decide⟩

/-- C1 (amended): if `best` is not requested and at least one row of the
library-masked gate-level candidate set carries a requested clocking scheme,
then every gate-level row of the filter result carries a requested clocking
scheme (with no library pairing and no bestagon/row special case); when no
candidate matches a requested scheme the scheme filter is skipped entirely. -/
theorem filter_scheme_mask_amended (b : Backend) (cfg : BenchmarkConfiguration)
    (db : List ParsedBenchmarkName) (hdb : b.database = some db)
    (hbest : cfg.best = false)
    (hne : (schemeUnionOf cfg (gateLibFiltered cfg (benchmarkSelected db cfg))).isEmpty = false) :
    ∀ e ∈ filter_database b cfg, e.level = str "gate" →
      e.clocking_scheme ∈ requestedSchemes cfg := by
  intro e he hlevel
  obtain ⟨db', hdb', _, hcase⟩ := mem_filter_database he
  rw [hdb] at hdb'
  injection hdb' with hdbeq
  subst hdbeq
  rcases hcase with hgf | ⟨_, hnw⟩
  · simp only [gateFiltered] at hgf
    by_cases hg : cfg.gate
    · rw [if_pos hg] at hgf
      rw [hbest] at hgf
      simp only [Bool.false_eq_true, if_false] at hgf
      rw [hne] at hgf
      simp only [Bool.false_eq_true, if_false] at hgf
      exact (mem_schemeUnionOf (mem_algoNarrowed hgf)).2
    · rw [if_neg hg] at hgf
      exact absurd hgf (List.not_mem_nil e)
  · rw [hnw] at hlevel
    exact absurd hlevel (by decide)

/-- Witness for `filter_scheme_mask_amended` at a concrete catalog and
selection. -/
theorem filter_scheme_mask_amended_witness :
    c1EntryW.clocking_scheme ∈ requestedSchemes c1Config :=
  filter_scheme_mask_amended c1BackendW c1Config [c1EntryW] rfl rfl (by decide)
    c1EntryW (by decide) rfl

/-- The concatenation of the four family tables, projected to file names. -/
def allBenchmarkFilenames : List Str :=
  (trindade ++ fontes ++ iscas ++ epfl).map (fun r => r.filename)

theorem resolve_single (n : Int) :
    resolveBenchmarks [n] =
      (if 1 ≤ n then allBenchmarkFilenames.get? (n - 1).toNat else none).toList := by
  by_cases h1 : 1 ≤ n
  · by_cases h43 : n ≤ 43
    · interval_cases n <;> rfl
    · have hget : allBenchmarkFilenames.get? (n - 1).toNat = none := by
        apply List.get?_eq_none.2
        have : allBenchmarkFilenames.length = 43 := rfl
        rw [this]; omega
      rw [if_pos h1, hget]
      simp only [resolveBenchmarks, List.append_nil]
      have t1 : (trindade.length : Int) = 7 := rfl
      have t2 : (fontes.length : Int) = 14 := rfl
      have t3 : (iscas.length : Int) = 11 := rfl
      have t4 : (epfl.length : Int) = 11 := rfl
      rw [t1, t2, t3, t4]
      rw [if_neg (by omega), if_neg (by omega), if_neg (by omega), if_neg (by omega)]
      rfl
  · rw [if_neg h1]
    simp only [resolveBenchmarks, List.append_nil]
    have t1 : (trindade.length : Int) = 7 := rfl
    have t2 : (fontes.length : Int) = 14 := rfl
    have t3 : (iscas.length : Int) = 11 := rfl
    have t4 : (epfl.length : Int) = 11 := rfl
    rw [t1, t2, t3, t4]
    rw [if_neg (by omega), if_neg (by omega), if_neg (by omega), if_neg (by omega)]
    rfl

theorem resolve_eq (ids : List Int) :
    resolveBenchmarks ids =
      ids.filterMap (fun n => if 1 ≤ n then allBenchmarkFilenames.get? (n - 1).toNat else none) := by
  induction ids with
  | nil => rfl
  | cons n rest ih =>
    have hc : resolveBenchmarks (n :: rest) =
        resolveBenchmarks [n] ++ resolveBenchmarks rest := by
      simp [resolveBenchmarks]
    rw [hc, resolve_single, ih, List.filterMap_cons]
    rcases hfn : (if 1 ≤ n then allBenchmarkFilenames.get? (n - 1).toNat else none) with _ | v <;>
      simp

/-- C6: benchmark identifiers resolve by position into the concatenation
`trindade ++ fontes ++ iscas ++ epfl` (43 names, identifier `n` picking index
`n - 1`); out-of-range identifiers contribute nothing and raise no error; and
every row the filter returns has its benchmark among the resolved names. -/
theorem benchmark_id_resolution :
    allBenchmarkFilenames.length = 43 ∧
    (∀ ids : List Int, resolveBenchmarks ids =
        ids.filterMap (fun n => if 1 ≤ n then allBenchmarkFilenames.get? (n - 1).toNat else none)) ∧
    (∀ b cfg e, e ∈ filter_database b cfg →
        e.benchmark ∈ resolveBenchmarks cfg.indices_benchmarks) := by
  refine ⟨rfl, resolve_eq, ?_⟩
  intro b cfg e he
  obtain ⟨db, _, hsel, _⟩ := mem_filter_database he
  exact mem_resolve_of_selected hsel

/-- Witness for `benchmark_id_resolution` at a concrete catalog, selection
and row. -/
theorem benchmark_id_resolution_witness :
    c1Entry.benchmark ∈ resolveBenchmarks c1Config.indices_benchmarks :=
  benchmark_id_resolution.2.2 c1Backend c1Config c1Entry (by decide)

/-- C7: the filter returns an empty result (and does not fail) on an
unloaded catalog, on an empty catalog, on a selection with no benchmark
identifiers, and on a selection with neither abstraction-level flag; an
all-empty selection never returns the whole catalog. -/
theorem filter_empty_cases :
    (∀ b cfg, b.database = none → filter_database b cfg = []) ∧
    (∀ b cfg, b.database = some [] → filter_database b cfg = []) ∧
    (∀ b cfg, cfg.indices_benchmarks = [] → filter_database b cfg = []) ∧
    (∀ b cfg, cfg.network = false → cfg.gate = false → filter_database b cfg = []) := by
  refine ⟨?_, ?_, ?_, ?_⟩
  · intro b cfg h
    simp [filter_database, filter_databaseS, h]
  · intro b cfg h
    simp [filter_database, filter_databaseS, h]
  · intro b cfg h
    apply List.eq_nil_iff_forall_not_mem.2
    intro e he
    obtain ⟨db, _, hsel, _⟩ := mem_filter_database he
    have hmem := mem_resolve_of_selected hsel
    rw [h] at hmem
    exact absurd hmem (List.not_mem_nil _)
  · intro b cfg hn hg
    apply List.eq_nil_iff_forall_not_mem.2
    intro e he
    obtain ⟨db, _, _, hcase⟩ := mem_filter_database he
    rcases hcase with hgf | ⟨hnw, _⟩
    · simp only [gateFiltered, hg, Bool.false_eq_true, if_false] at hgf
      exact absurd hgf (List.not_mem_nil e)
    · rw [hn] at hnw
      exact absurd hnw (by decide)

/-- Witness for `filter_empty_cases` at concrete inputs. -/
theorem filter_empty_cases_witness :
    filter_database { database := none, layout_dimensions := [] } c1Config = [] ∧
    filter_database { database := some [], layout_dimensions := [] } c1Config = [] ∧
    filter_database c1Backend { c1Config with indices_benchmarks := [] } = [] ∧
    filter_database c1Backend { c1Config with network := false, gate := false } = [] :=
  ⟨filter_empty_cases.1 _ c1Config rfl,
   filter_empty_cases.2.1 _ c1Config rfl,
   filter_empty_cases.2.2.1 c1Backend _ rfl,
   filter_empty_cases.2.2.2 c1Backend _ rfl rfl⟩

/-- C8: the filter result never contains the same row twice, even when a row
satisfies several OR-branches of the selection predicate
(`drop_duplicates()` on line 230 of `mnt/bench/backend.py`). -/
theorem filter_no_duplicates (b : Backend) (cfg : BenchmarkConfiguration) :
    (filter_database b cfg).Nodup := by
  rcases hdb : b.database with _ | db <;>
    simp only [filter_database, filter_databaseS, hdb]
  · exact List.nodup_nil
  · by_cases hemp : db.isEmpty <;> simp only [hemp, Bool.false_eq_true, if_false, if_true]
    · exact List.nodup_nil
    · exact nodup_dropDuplicates _

/-- C9: `filter_database` never mutates the backend state — the database
after the call is the one before it, and repeating the call on the
post-state returns the same result. -/
theorem filter_preserves_database (b : Backend) (cfg : BenchmarkConfiguration) :
    (filter_databaseS b cfg).2 = b ∧
    (filter_databaseS (filter_databaseS b cfg).2 cfg).1 = (filter_databaseS b cfg).1 := by
  have h2 : (filter_databaseS b cfg).2 = b := by
    rcases hdb : b.database with _ | db <;>
      simp only [filter_databaseS, hdb]
    split <;> rfl
  exact ⟨h2, by rw [h2]⟩

/-! ### Catalog entry parser (`Backend.parse_data`, `create_database`) -/

/-- The exceptions `parse_data` can raise: `RuntimeError` for an unknown
extension (`UnsupportedFileType` in the spec) and `ValueError` for a
destructuring of fewer than two suffix tokens. -/
inductive ParseError where
  | unsupportedFileType
  | valueError
deriving DecidableEq, Repr

/-- `next((entry for entry in self.layout_dimensions if filename in entry), {})`
followed by `.get(filename, {})`: the side-table is a list of single-key
dicts; the first whose key is `filename` provides the dimensions. -/
def lookupDims (table : List (Str × LayoutDims)) (filename : Str) : Option LayoutDims :=
  (table.find? (fun p => p.1 == filename)).map (fun p => p.2)

/-- Python `"_".join(ts)`. -/
def underscoreJoin (ts : List Str) : Str := List.intercalate [('_' : Char)] ts

/-- The suffix destructuring of the `.fgl` branch of `Backend.parse_data`:
`specs[0:-k]` rejoined is the benchmark, `specs[-k:]` destructures as
`library, clocking_scheme, *additional_specs` (raising `ValueError` when
fewer than two tokens remain), and `additional_specs` is padded with empty
strings to the three algorithm/optimized/ordered fields. -/
def parseGateSuffix (dims : Option LayoutDims) (filename : Str) (specs : List Str)
    (k : Nat) : Except ParseError ParsedBenchmarkName :=
  match specs.drop (specs.length - k) with
  | library :: clocking_scheme :: additional_specs =>
    match additional_specs ++ List.replicate (3 - additional_specs.length) [] with
    | [physical_design_algorithm, optimized, ordered] =>
      Except.ok
        { benchmark := underscoreJoin (specs.take (specs.length - k)),
          level := str "gate", library := library,
          clocking_scheme := clocking_scheme,
          physical_design_algorithm := physical_design_algorithm,
          optimized := optimized, ordered := ordered,
          x := dims.map (fun d => d.x), y := dims.map (fun d => d.y),
          area := dims.map (fun d => d.x * d.y),
          size_uncompressed := (dims.map (fun d => d.size_uncompressed)).getD 0,
          size_compressed := (dims.map (fun d => d.size_compressed)).getD 0,
          filename := filename }
    | _ => Except.error ParseError.valueError
  | _ => Except.error ParseError.valueError

/-- `Backend.parse_data` of `mnt/bench/backend.py` (lines 539-590).
`filename.split(".")[0].lower().split("_")` becomes a `splitOn`/`pyLower`
chain; the Python slices `specs[0:-k]` / `specs[-k:]` become
`take (length - k)` / `drop (length - k)` (identical clamping for short
lists) inside `parseGateSuffix`; the `layout_dimensions` lookup is inlined
at each of its use sites. -/
def parse_data (b : Backend) (filename : Str) : Except ParseError ParsedBenchmarkName :=
  if (str ".fgl").isSuffixOf filename then
    parseGateSuffix (lookupDims b.layout_dimensions filename) filename
      ((pyLower (List.headD (filename.splitOn '.') [])).splitOn '_')
      (if containsSub (str "best.fgl") (pyLower filename) then 2 else 5)
  else if (str ".v").isSuffixOf filename then
    Except.ok
      { benchmark := pyLower (List.headD (filename.splitOn '.') []),
        level := str "network",
        library := [], clocking_scheme := [], physical_design_algorithm := [],
        optimized := [], ordered := [],
        x := (lookupDims b.layout_dimensions filename).map (fun d => d.x),
        y := (lookupDims b.layout_dimensions filename).map (fun d => d.y),
        area := none,
        size_uncompressed :=
          ((lookupDims b.layout_dimensions filename).map (fun d => d.size_uncompressed)).getD 0,
        size_compressed :=
          ((lookupDims b.layout_dimensions filename).map (fun d => d.size_compressed)).getD 0,
        filename := filename }
  else Except.error ParseError.unsupportedFileType

/-- `create_database` of `mnt/bench/backend.py` (lines 639-656): iterate the
archive's member names, parse those ending in `.fgl` or `.v`, and collect
the rows; a raised parse error propagates. -/
def create_database (b : Backend) : List Str → Except ParseError (List ParsedBenchmarkName)
  | [] => Except.ok []
  | filename :: rest =>
    if (str ".fgl").isSuffixOf filename || (str ".v").isSuffixOf filename then
      match parse_data b filename with
      | Except.error e => Except.error e
      | Except.ok parsed =>
        match create_database b rest with
        | Except.error e => Except.error e
        | Except.ok others => Except.ok (parsed :: others)
    else create_database b rest

/-- C2 counterexample: an archive member list with a `.txt` member does not
abort catalog load — `create_database` silently skips the member and builds
the catalog from the remaining ones. -/
theorem create_database_unknown_ext_counterexample :
    ((str ".fgl").isSuffixOf (str "foo.txt") || (str ".v").isSuffixOf (str "foo.txt")) = false ∧
    create_database { database := none, layout_dimensions := [] }
        [str "foo.txt", str "clpl.v"] =
      Except.ok [{ benchmark := str "clpl", level := str "network",
                   library := [], clocking_scheme := [],
                   physical_design_algorithm := [], optimized := [], ordered := [],
                   x := none, y := none, area := none,
                   size_uncompressed := 0, size_compressed := 0,
                   filename := str "clpl.v" }] := by
  constructor
  · decide
  · rfl

/-- C2 (amended): catalog load skips every member whose extension is neither
`.fgl` nor `.v` and builds the catalog from the remaining members;
the unsupported-file-type error arises only when `parse_data` is applied
directly to such a name. -/
theorem create_database_skips_unknown_ext :
    (∀ b names, create_database b names =
        create_database b
          (names.filter (fun n => (str ".fgl").isSuffixOf n || (str ".v").isSuffixOf n))) ∧
    (∀ b n, ((str ".fgl").isSuffixOf n || (str ".v").isSuffixOf n) = false →
        parse_data b n = Except.error ParseError.unsupportedFileType) := by
  constructor
  · intro b names
    induction names with
    | nil => rfl
    | cons n rest ih =>
      by_cases hc : ((str ".fgl").isSuffixOf n || (str ".v").isSuffixOf n) = true
      · simp only [create_database, hc, if_true, List.filter_cons, ih]
      · have hc' : ((str ".fgl").isSuffixOf n || (str ".v").isSuffixOf n) = false :=
          Bool.not_eq_true _ ▸ (by simpa using hc)
        simp only [create_database, hc', Bool.false_eq_true, if_false,
          List.filter_cons, ih]
  · intro b n h
    rcases Bool.or_eq_false_iff.1 h with ⟨h1, h2⟩
    simp only [parse_data, h1, h2, Bool.false_eq_true, if_false]

/-- Witness for `create_database_skips_unknown_ext` at concrete inputs. -/
theorem create_database_skips_unknown_ext_witness :
    create_database { database := none, layout_dimensions := [] }
        [str "foo.txt", str "clpl.v"] =
      create_database { database := none, layout_dimensions := [] }
        ([str "foo.txt", str "clpl.v"].filter
          (fun n => (str ".fgl").isSuffixOf n || (str ".v").isSuffixOf n)) ∧
    parse_data { database := none, layout_dimensions := [] } (str "foo.txt") =
      Except.error ParseError.unsupportedFileType :=
  ⟨create_database_skips_unknown_ext.1 _ _,
   create_database_skips_unknown_ext.2 _ _ (by decide)⟩

/-! ### String toolkit for the file-naming convention -/

theorem pyLowerChar_underscore {c : Char} (h : pyLowerChar c = '_') : c = '_' := by
  unfold pyLowerChar at h
  split_ifs at h with hc
  · exfalso
    obtain ⟨h1, h2⟩ := hc
    obtain ⟨m, hm⟩ : ∃ m, c.toNat = m := ⟨_, rfl⟩
    rw [hm] at h h1 h2
    interval_cases m <;> exact absurd h (by decide)
  · exact h

theorem pyLowerChar_dot {c : Char} (h : pyLowerChar c = '.') : c = '.' := by
  unfold pyLowerChar at h
  split_ifs at h with hc
  · exfalso
    obtain ⟨h1, h2⟩ := hc
    obtain ⟨m, hm⟩ : ∃ m, c.toNat = m := ⟨_, rfl⟩
    rw [hm] at h h1 h2
    interval_cases m <;> exact absurd h (by decide)
  · exact h

theorem not_mem_pyLower_underscore {t : Str} (h : ('_' : Char) ∉ t) :
    ('_' : Char) ∉ pyLower t := by
  intro hm
  rcases List.mem_map.1 hm with ⟨c, hc, hceq⟩
  exact h ((pyLowerChar_underscore hceq) ▸ hc)

theorem not_mem_pyLower_dot {t : Str} (h : ('.' : Char) ∉ t) :
    ('.' : Char) ∉ pyLower t := by
  intro hm
  rcases List.mem_map.1 hm with ⟨c, hc, hceq⟩
  exact h ((pyLowerChar_dot hceq) ▸ hc)

theorem intercalate_cons_two {α} (c : α) (t : List α) (ts : List (List α)) (h : ts ≠ []) :
    List.intercalate [c] (t :: ts) = t ++ c :: List.intercalate [c] ts := by
  rcases ts with _ | ⟨t2, ts2⟩
  · exact absurd rfl h
  · simp [List.intercalate, List.intersperse]

theorem mem_of_mem_intercalate {α} {c x : α} {ts : List (List α)}
    (h : x ∈ List.intercalate [c] ts) : x = c ∨ ∃ t ∈ ts, x ∈ t := by
  induction ts with
  | nil => simp [List.intercalate] at h
  | cons t ts ih =>
    rcases eq_or_ne ts [] with rfl | hne
    · simp only [List.intercalate, List.intersperse] at h
      simp at h
      exact Or.inr ⟨t, by simp, h⟩
    · rw [intercalate_cons_two c t ts hne] at h
      rcases List.mem_append.1 h with h | h
      · exact Or.inr ⟨t, by simp, h⟩
      · rcases List.mem_cons.1 h with rfl | h
        · exact Or.inl rfl
        · rcases ih h with h | ⟨u, hu, hx⟩
          · exact Or.inl h
          · exact Or.inr ⟨u, List.mem_cons_of_mem _ hu, hx⟩

theorem intercalate_snoc {α} (c : α) (ts : List (List α)) (t : List α) (h : ts ≠ []) :
    List.intercalate [c] (ts ++ [t]) = List.intercalate [c] ts ++ c :: t := by
  induction ts with
  | nil => exact absurd rfl h
  | cons t1 ts ih =>
    rcases eq_or_ne ts [] with rfl | hne
    · simp [List.intercalate, List.intersperse]
    · rw [List.cons_append, intercalate_cons_two c t1 (ts ++ [t]) (by simp),
        ih hne, intercalate_cons_two c t1 ts hne]
      simp

theorem pyLower_intercalate (ts : List Str) :
    pyLower (List.intercalate [('_' : Char)] ts) =
      List.intercalate [('_' : Char)] (ts.map pyLower) := by
  induction ts with
  | nil => rfl
  | cons t ts ih =>
    rcases eq_or_ne ts [] with rfl | hne
    · simp [List.intercalate, List.intersperse]
    · rw [intercalate_cons_two _ t ts hne, List.map_cons,
        intercalate_cons_two _ (pyLower t) (ts.map pyLower) (by simpa using hne)]
      simp only [pyLower, List.map_append, List.map_cons]
      rw [show pyLowerChar '_' = '_' by decide]
      have ih2 : List.map pyLowerChar (List.intercalate [('_' : Char)] ts) =
          List.intercalate [('_' : Char)] (ts.map pyLower) := ih
      rw [ih2]

theorem splitOn_sep_append {α} [DecidableEq α] (s : α) (u w : List α)
    (hu : s ∉ u) (hw : s ∉ w) :
    (u ++ s :: w).splitOn s = [u, w] := by
  have hcondu : ∀ x ∈ u, ¬((fun x => x == s) x = true) := by
    intro x hx
    simp only [beq_iff_eq]
    intro heq
    exact hu (heq ▸ hx)
  have hcondw : ∀ x ∈ w, ¬((fun x => x == s) x = true) := by
    intro x hx
    simp only [beq_iff_eq]
    intro heq
    exact hw (heq ▸ hx)
  show List.splitOnP (fun x => x == s) (u ++ s :: w) = [u, w]
  rw [List.splitOnP_first _ u hcondu s (by simp) w,
    List.splitOnP_eq_single _ _ hcondw]

theorem append_sep_inj {α} (s : α) {a b a' b' : List α}
    (ha : s ∉ a) (ha' : s ∉ a')
    (h : a ++ s :: b = a' ++ s :: b') : a = a' ∧ b = b' := by
  induction a generalizing a' with
  | nil =>
    rcases a' with _ | ⟨y, ys⟩
    · simpa using h
    · simp only [List.nil_append, List.cons_append] at h
      injection h with h1 h2
      subst h1
      exact absurd (List.mem_cons_self _ _) ha'
  | cons x xs ih =>
    rcases a' with _ | ⟨y, ys⟩
    · simp only [List.cons_append, List.nil_append] at h
      injection h with h1 h2
      subst h1
      exact absurd (List.mem_cons_self _ _) ha
    · simp only [List.cons_append] at h
      injection h with h1 h2
      obtain ⟨hxs, hb⟩ := ih (fun hm => ha (List.mem_cons_of_mem _ hm))
        (fun hm => ha' (List.mem_cons_of_mem _ hm)) h2
      exact ⟨by rw [h1, hxs], hb⟩

theorem suffix_of_sep_parts {α} [DecidableEq α] (s : α) {p w u w' : List α}
    (hp : s ∉ p) (hw : s ∉ w) (hu : s ∉ u) (hw' : s ∉ w')
    (h : (p ++ s :: w) <:+: (u ++ s :: w')) : p <:+ u := by
  obtain ⟨x, y, hxy⟩ := h
  have hcount := congrArg (List.count s) hxy
  simp only [List.count_append, List.count_cons_self] at hcount
  rw [List.count_eq_zero.2 hp, List.count_eq_zero.2 hw,
    List.count_eq_zero.2 hu, List.count_eq_zero.2 hw'] at hcount
  have hx : s ∉ x := List.count_eq_zero.1 (by omega)
  have hy : s ∉ y := List.count_eq_zero.1 (by omega)
  have hre : (x ++ p) ++ s :: (w ++ y) = u ++ s :: w' := by
    simpa [List.append_assoc] using hxy
  have hxp : s ∉ x ++ p := by
    intro hm
    rcases List.mem_append.1 hm with hm | hm
    · exact hx hm
    · exact hp hm
  obtain ⟨heq, -⟩ := append_sep_inj s hxp hu hre
  exact ⟨x, heq⟩

theorem containsSub_iff (p l : List Char) : containsSub p l = true ↔ p <:+: l := by
  induction l with
  | nil =>
    simp only [containsSub, List.isEmpty_iff]
    exact ( List.infix_nil).symm
  | cons c rest ih =>
    simp only [containsSub, Bool.or_eq_true, List.isPrefixOf_iff_prefix, ih]
    exact ( List.infix_cons_iff).symm

/-! ### The file-naming convention and its parse (C5) -/

/-- A well-formed name token: non-empty, without the underscore separator
and without a dot. -/
def goodToken (t : Str) : Prop := t ≠ [] ∧ ('_' : Char) ∉ t ∧ ('.' : Char) ∉ t

instance goodToken_decidable (t : Str) : Decidable (goodToken t) := by
  unfold goodToken
  infer_instance

/-- A gate-level file name in the full 5-token schema
`<stem>_<library>_<scheme>_<algorithm>_<optimized>_<ordered>.fgl`. -/
def mkFullName (stem : List Str) (lib scheme alg opt ord : Str) : Str :=
  underscoreJoin (stem ++ [lib, scheme, alg, opt, ord]) ++ str ".fgl"

/-- A gate-level file name in the 2-token best-clocking shorthand
`<stem>_<library>_BEST.fgl`. -/
def mkBestName (stem : List Str) (lib : Str) : Str :=
  underscoreJoin (stem ++ [lib, str "BEST"]) ++ str ".fgl"

theorem dot_not_mem_underscoreJoin {tokens : List Str}
    (htok : ∀ t ∈ tokens, ('.' : Char) ∉ t) :
    ('.' : Char) ∉ underscoreJoin tokens := by
  intro hm
  rcases mem_of_mem_intercalate hm with h | ⟨t, ht, hx⟩
  · exact absurd h (by decide)
  · exact htok t ht hx

theorem splitDot_name {tokens : List Str}
    (htok : ∀ t ∈ tokens, ('.' : Char) ∉ t) :
    (underscoreJoin tokens ++ str ".fgl").splitOn '.' =
      [underscoreJoin tokens, str "fgl"] := by
  have h := splitOn_sep_append '.' (underscoreJoin tokens) (str "fgl")
    (dot_not_mem_underscoreJoin htok) (by decide)
  exact h

theorem splitUnderscore_name {tokens : List Str} (hne : tokens ≠ [])
    (htok : ∀ t ∈ tokens, ('_' : Char) ∉ t) :
    (pyLower (underscoreJoin tokens)).splitOn '_' = tokens.map pyLower := by
  rw [show underscoreJoin tokens = List.intercalate [('_' : Char)] tokens from rfl,
    pyLower_intercalate]
  exact List.splitOn_intercalate _ '_'
    (by
      intro l hl
      rcases List.mem_map.1 hl with ⟨t, ht, rfl⟩
      exact not_mem_pyLower_underscore (htok t ht))
    (by simpa using hne)

theorem pyLower_name_append (base : Str) :
    pyLower (base ++ str ".fgl") = pyLower base ++ str ".fgl" := by
  simp only [pyLower]
  rw [List.map_append, show List.map pyLowerChar (str ".fgl") = str ".fgl" by decide]

theorem full_name_not_best {tokens0 : List Str} {ord : Str}
    (htok : ∀ t ∈ tokens0 ++ [ord], ('.' : Char) ∉ t)
    (hne : tokens0 ≠ [])
    (hord : pyLower ord = str "ord" ∨ pyLower ord = str "unord") :
    containsSub (str "best.fgl")
      (pyLower (underscoreJoin (tokens0 ++ [ord]) ++ str ".fgl")) = false := by
  rw [pyLower_name_append]
  cases hb : containsSub (str "best.fgl")
      (pyLower (underscoreJoin (tokens0 ++ [ord])) ++ str ".fgl") with
  | false => rfl
  | true =>
    exfalso
    have hinf : (str "best" ++ ('.' :: str "fgl")) <:+:
        (pyLower (underscoreJoin (tokens0 ++ [ord])) ++ ('.' :: str "fgl")) :=
      (containsSub_iff _ _).1 hb
    have hdot : ('.' : Char) ∉ pyLower (underscoreJoin (tokens0 ++ [ord])) :=
      not_mem_pyLower_dot (dot_not_mem_underscoreJoin htok)
    have hsuf : str "best" <:+ pyLower (underscoreJoin (tokens0 ++ [ord])) :=
      suffix_of_sep_parts '.' (by decide) (by decide) hdot (by decide) hinf
    have hbase : pyLower (underscoreJoin (tokens0 ++ [ord])) =
        List.intercalate [('_' : Char)] (tokens0.map pyLower) ++ '_' :: pyLower ord := by
      rw [show underscoreJoin (tokens0 ++ [ord]) =
          List.intercalate [('_' : Char)] (tokens0 ++ [ord]) from rfl,
        pyLower_intercalate, List.map_append, List.map_cons, List.map_nil]
      exact intercalate_snoc '_' (tokens0.map pyLower) (pyLower ord) (by simpa using hne)
    obtain ⟨z, hz⟩ := hsuf
    have hlast := congrArg List.getLast? hz
    rw [List.getLast?_append_of_ne_nil z (by decide), hbase,
      List.getLast?_append_of_ne_nil _ (by simp)] at hlast
    rcases hord with h | h <;> rw [h] at hlast <;> exact absurd hlast (by decide)

theorem best_name_is_best {tokens0 : List Str} (hne : tokens0 ≠ []) :
    containsSub (str "best.fgl")
      (pyLower (underscoreJoin (tokens0 ++ [str "BEST"]) ++ str ".fgl")) = true := by
  rw [pyLower_name_append]
  apply (containsSub_iff _ _).2
  have hbase : pyLower (underscoreJoin (tokens0 ++ [str "BEST"])) =
      List.intercalate [('_' : Char)] (tokens0.map pyLower) ++ '_' :: str "best" := by
    rw [show underscoreJoin (tokens0 ++ [str "BEST"]) =
        List.intercalate [('_' : Char)] (tokens0 ++ [str "BEST"]) from rfl,
      pyLower_intercalate, List.map_append, List.map_cons, List.map_nil,
      show pyLower (str "BEST") = str "best" by decide]
    exact intercalate_snoc '_' (tokens0.map pyLower) (str "best") (by simpa using hne)
  rw [hbase]
  refine ⟨List.intercalate [('_' : Char)] (tokens0.map pyLower) ++ ['_'], [], ?_⟩
  simp only [List.append_assoc, List.append_nil]
  rfl

theorem parseGateSuffix_five (dims : Option LayoutDims) (filename : Str)
    (pre : List Str) (l s a o r : Str) :
    parseGateSuffix dims filename (pre ++ [l, s, a, o, r]) 5 =
      Except.ok
        { benchmark := underscoreJoin pre, level := str "gate",
          library := l, clocking_scheme := s, physical_design_algorithm := a,
          optimized := o, ordered := r,
          x := dims.map (fun d => d.x), y := dims.map (fun d => d.y),
          area := dims.map (fun d => d.x * d.y),
          size_uncompressed := (dims.map (fun d => d.size_uncompressed)).getD 0,
          size_compressed := (dims.map (fun d => d.size_compressed)).getD 0,
          filename := filename } := by
  unfold parseGateSuffix
  have hlen : (pre ++ [l, s, a, o, r]).length - 5 = pre.length := by simp
  rw [hlen, List.drop_left, List.take_left]
  rfl

theorem parseGateSuffix_two (dims : Option LayoutDims) (filename : Str)
    (pre : List Str) (l s : Str) :
    parseGateSuffix dims filename (pre ++ [l, s]) 2 =
      Except.ok
        { benchmark := underscoreJoin pre, level := str "gate",
          library := l, clocking_scheme := s, physical_design_algorithm := [],
          optimized := [], ordered := [],
          x := dims.map (fun d => d.x), y := dims.map (fun d => d.y),
          area := dims.map (fun d => d.x * d.y),
          size_uncompressed := (dims.map (fun d => d.size_uncompressed)).getD 0,
          size_compressed := (dims.map (fun d => d.size_compressed)).getD 0,
          filename := filename } := by
  unfold parseGateSuffix
  have hlen : (pre ++ [l, s]).length - 2 = pre.length := by simp
  rw [hlen, List.drop_left, List.take_left]
  rfl

/-- C5: parsing is a left-inverse of the naming convention. For a gate-level
name built from the full 5-token suffix schema, `parse_data` returns the
input name as `filename`, the lower-cased stem as `benchmark`, and the
lower-cased suffix tokens as library, clocking scheme, algorithm, optimized
and ordered; for the 2-token `BEST` shorthand it returns the lower-cased
library, `best` as the clocking scheme, and empty remaining fields. -/
theorem parse_data_left_inverse (b : Backend) (stem : List Str)
    (lib scheme alg opt ord : Str)
    (hstem : stem ≠ []) (hstemtok : ∀ t ∈ stem, goodToken t)
    (hlib : goodToken lib) (hscheme : goodToken scheme) (halg : goodToken alg)
    (hopt : goodToken opt) (hord : goodToken ord)
    (hordvoc : pyLower ord = str "ord" ∨ pyLower ord = str "unord") :
    parse_data b (mkFullName stem lib scheme alg opt ord) =
      Except.ok
        { benchmark := pyLower (underscoreJoin stem), level := str "gate",
          library := pyLower lib, clocking_scheme := pyLower scheme,
          physical_design_algorithm := pyLower alg,
          optimized := pyLower opt, ordered := pyLower ord,
          x := (lookupDims b.layout_dimensions
            (mkFullName stem lib scheme alg opt ord)).map (fun d => d.x),
          y := (lookupDims b.layout_dimensions
            (mkFullName stem lib scheme alg opt ord)).map (fun d => d.y),
          area := (lookupDims b.layout_dimensions
            (mkFullName stem lib scheme alg opt ord)).map (fun d => d.x * d.y),
          size_uncompressed := ((lookupDims b.layout_dimensions
            (mkFullName stem lib scheme alg opt ord)).map (fun d => d.size_uncompressed)).getD 0,
          size_compressed := ((lookupDims b.layout_dimensions
            (mkFullName stem lib scheme alg opt ord)).map (fun d => d.size_compressed)).getD 0,
          filename := mkFullName stem lib scheme alg opt ord } ∧
    parse_data b (mkBestName stem lib) =
      Except.ok
        { benchmark := pyLower (underscoreJoin stem), level := str "gate",
          library := pyLower lib, clocking_scheme := str "best",
          physical_design_algorithm := [], optimized := [], ordered := [],
          x := (lookupDims b.layout_dimensions (mkBestName stem lib)).map (fun d => d.x),
          y := (lookupDims b.layout_dimensions (mkBestName stem lib)).map (fun d => d.y),
          area := (lookupDims b.layout_dimensions (mkBestName stem lib)).map (fun d => d.x * d.y),
          size_uncompressed := ((lookupDims b.layout_dimensions
            (mkBestName stem lib)).map (fun d => d.size_uncompressed)).getD 0,
          size_compressed := ((lookupDims b.layout_dimensions
            (mkBestName stem lib)).map (fun d => d.size_compressed)).getD 0,
          filename := mkBestName stem lib } := by
  have hdotall : ∀ t ∈ stem ++ [lib, scheme, alg, opt, ord], ('.' : Char) ∉ t := by
    intro t ht
    rcases List.mem_append.1 ht with h | h
    · exact (hstemtok t h).2.2
    · simp only [List.mem_cons, List.not_mem_nil, or_false] at h
      rcases h with rfl | rfl | rfl | rfl | rfl
      · exact hlib.2.2
      · exact hscheme.2.2
      · exact halg.2.2
      · exact hopt.2.2
      · exact hord.2.2
  have hunderall : ∀ t ∈ stem ++ [lib, scheme, alg, opt, ord], ('_' : Char) ∉ t := by
    intro t ht
    rcases List.mem_append.1 ht with h | h
    · exact (hstemtok t h).2.1
    · simp only [List.mem_cons, List.not_mem_nil, or_false] at h
      rcases h with rfl | rfl | rfl | rfl | rfl
      · exact hlib.2.1
      · exact hscheme.2.1
      · exact halg.2.1
      · exact hopt.2.1
      · exact hord.2.1
  have hdotb : ∀ t ∈ stem ++ [lib, str "BEST"], ('.' : Char) ∉ t := by
    intro t ht
    rcases List.mem_append.1 ht with h | h
    · exact (hstemtok t h).2.2
    · simp only [List.mem_cons, List.not_mem_nil, or_false] at h
      rcases h with rfl | rfl
      · exact hlib.2.2
      · decide
  have hunderb : ∀ t ∈ stem ++ [lib, str "BEST"], ('_' : Char) ∉ t := by
    intro t ht
    rcases List.mem_append.1 ht with h | h
    · exact (hstemtok t h).2.1
    · simp only [List.mem_cons, List.not_mem_nil, or_false] at h
      rcases h with rfl | rfl
      · exact hlib.2.1
      · decide
  constructor
  · -- full 5-token schema
    have hassoc : stem ++ [lib, scheme, alg, opt, ord] =
        (stem ++ [lib, scheme, alg, opt]) ++ [ord] := by simp
    rw [show mkFullName stem lib scheme alg opt ord =
        underscoreJoin (stem ++ [lib, scheme, alg, opt, ord]) ++ str ".fgl" from rfl]
    have hsu : (str ".fgl").isSuffixOf
        (underscoreJoin (stem ++ [lib, scheme, alg, opt, ord]) ++ str ".fgl") = true :=
      List.isSuffixOf_iff_suffix.2 ⟨_, rfl⟩
    have hnb : containsSub (str "best.fgl")
        (pyLower (underscoreJoin (stem ++ [lib, scheme, alg, opt, ord]) ++ str ".fgl")) =
        false := by
      rw [hassoc]
      exact full_name_not_best (hassoc ▸ hdotall) (by simp) hordvoc
    unfold parse_data
    rw [if_pos hsu, hnb, if_neg (by decide)]
    rw [splitDot_name hdotall]
    simp only [List.headD_cons]
    rw [splitUnderscore_name (by simp) hunderall]
    rw [show (stem ++ [lib, scheme, alg, opt, ord]).map pyLower =
        stem.map pyLower ++
          [pyLower lib, pyLower scheme, pyLower alg, pyLower opt, pyLower ord] by
      rw [List.map_append]
      simp only [List.map_cons, List.map_nil]]
    rw [parseGateSuffix_five]
    rw [show underscoreJoin (stem.map pyLower) = pyLower (underscoreJoin stem) from
      (pyLower_intercalate stem).symm]
  · -- BEST shorthand
    rw [show mkBestName stem lib =
        underscoreJoin (stem ++ [lib, str "BEST"]) ++ str ".fgl" from rfl]
    have hsu : (str ".fgl").isSuffixOf
        (underscoreJoin (stem ++ [lib, str "BEST"]) ++ str ".fgl") = true :=
      List.isSuffixOf_iff_suffix.2 ⟨_, rfl⟩
    have hib : containsSub (str "best.fgl")
        (pyLower (underscoreJoin (stem ++ [lib, str "BEST"]) ++ str ".fgl")) = true := by
      have h := @best_name_is_best (stem ++ [lib]) (by simp)
      rw [show (stem ++ [lib]) ++ [str "BEST"] = stem ++ [lib, str "BEST"] by simp] at h
      exact h
    unfold parse_data
    rw [if_pos hsu, hib, if_pos rfl]
    rw [splitDot_name hdotb]
    simp only [List.headD_cons]
    rw [splitUnderscore_name (by simp) hunderb]
    rw [show (stem ++ [lib, str "BEST"]).map pyLower =
        stem.map pyLower ++ [pyLower lib, str "best"] by
      rw [List.map_append]
      simp only [List.map_cons, List.map_nil]
      rw [show pyLower (str "BEST") = str "best" by decide]]
    rw [parseGateSuffix_two]
    rw [show underscoreJoin (stem.map pyLower) = pyLower (underscoreJoin stem) from
      (pyLower_intercalate stem).symm]

/-- Witness for `parse_data_left_inverse` on the concrete names
`mux21_ONE_2DDWave_exact_UnOpt_UnOrd.fgl` and `mux21_ONE_BEST.fgl`. -/
theorem parse_data_left_inverse_witness :
    (parse_data { database := none, layout_dimensions := [] }
        (mkFullName [str "mux21"] (str "ONE") (str "2DDWave") (str "exact")
          (str "UnOpt") (str "UnOrd"))).isOk = true ∧
    (parse_data { database := none, layout_dimensions := [] }
        (mkBestName [str "mux21"] (str "ONE"))).isOk = true := by
  have h := parse_data_left_inverse { database := none, layout_dimensions := [] }
    [str "mux21"] (str "ONE") (str "2DDWave") (str "exact") (str "UnOpt") (str "UnOrd")
    (by decide) (by decide) (by decide) (by decide) (by decide) (by decide) (by decide)
    (by decide)
  rw [h.1, h.2]
  exact ⟨rfl, rfl⟩

/-! ### Archive restreamer (`NoSeekBytesIO`, `generate_zip_ephemeral_chunks`)

Python `bytes` contents are modelled as `List Nat`. The zip container format
and the deflate codec are the `zipfile` library boundary; they are modelled
as an injective, prefix-decodable encoding (`encodeMember` for a
`writestr` record, `encodeCentralDir` for the directory written at close),
whose decoding (`decodeArchive`) recovers each member's name and its
decompressed payload. The repository's own logic — member lookup and
failure, the basename used as archive name, and the per-member
drain-and-reset protocol on `NoSeekBytesIO` — is modelled statement by
statement. -/

/-- Python `bytes` contents. -/
abbrev Bytes := List Nat

/-- `self.mntbench_all_zip.read(name)` — the payload of the first member
with the given name; `none` models the `KeyError` for an absent member. -/
def zipRead (source : List (Str × Bytes)) (name : Str) : Option Bytes :=
  (source.find? (fun p => p.1 == name)).map (fun p => p.2)

/-- `pathlib.Path(name).name` — the final path component; faithful for clean
paths (no trailing separator, final component not `.` or `..`). -/
def baseName (p : Str) : Str := (p.splitOn '/').getLastD []

/-- The `NoSeekBytesIO` wrapper of `mnt/bench/backend.py` (lines 593-628):
an `io.BytesIO` (its contents and position) plus the `deleted_offset`
remembered across truncations. -/
structure NoSeekBytesIO where
  data : Bytes
  pos : Nat
  deleted_offset : Nat
deriving DecidableEq, Repr

/-- `write(b)`: overwrite at the position, extend past the end. -/
def NoSeekBytesIO.write (f : NoSeekBytesIO) (b : Bytes) : NoSeekBytesIO :=
  { f with data := f.data.take f.pos ++ b ++ f.data.drop (f.pos + b.length),
           pos := f.pos + b.length }

/-- `tell()`: the deleted offset plus the inner position. -/
def NoSeekBytesIO.tell (f : NoSeekBytesIO) : Nat := f.deleted_offset + f.pos

/-- `hidden_seek(0)`. -/
def NoSeekBytesIO.hidden_seek0 (f : NoSeekBytesIO) : NoSeekBytesIO := { f with pos := 0 }

/-- `read()`: the bytes from the position to the end; the position moves to
the end. -/
def NoSeekBytesIO.readAll (f : NoSeekBytesIO) : Bytes × NoSeekBytesIO :=
  (f.data.drop f.pos, { f with pos := f.data.length })

/-- `truncate_and_remember_offset(0)`: add the inner position to the deleted
offset, seek to zero and truncate the buffer. -/
def NoSeekBytesIO.truncate0 (f : NoSeekBytesIO) : NoSeekBytesIO :=
  { data := [], pos := 0, deleted_offset := f.deleted_offset + f.pos }

/-- Abstract byte encoding of one member record (local header plus stored
payload) as written by `ZipFile.writestr`. -/
def encodeMember (name : Str) (data : Bytes) : Bytes :=
  0 :: name.length :: (name.map Char.toNat ++ data.length :: data)

/-- Abstract byte encoding of the archive trailer written by
`ZipFile.close`: the central directory (one record per member, carrying the
name and the header offset observed via `fileobj.tell()` at `writestr`
time) and the end record with the directory start offset. -/
def encodeCentralDir (cdStart : Nat) (entries : List (Str × Nat)) : Bytes :=
  1 :: cdStart :: entries.length ::
    (entries.map (fun e => e.1.length :: (e.1.map Char.toNat ++ [e.2]))).flatten

/-- The open `ZipFile(fileobj, mode="w")`: the output stream and the
directory records accumulated for `close`. -/
structure ZipWriterState where
  fileobj : NoSeekBytesIO
  entries : List (Str × Nat)
deriving DecidableEq, Repr

/-- `zf.writestr(arcname, data, ZIP_DEFLATED, compresslevel=3)`: note the
header offset `fileobj.tell()`, then write the member record. -/
def writestr (zw : ZipWriterState) (arcname : Str) (data : Bytes) : ZipWriterState :=
  { fileobj := zw.fileobj.write (encodeMember arcname data),
    entries := zw.entries ++ [(arcname, zw.fileobj.tell)] }

/-- The member loop of `generate_zip_ephemeral_chunks` (lines 247-258): for
each requested name, read it from the source archive (a missing member
raises `KeyError` and stops the generator), `writestr` it under its
basename, then `hidden_seek(0)`, `read()` (the yielded chunk) and
`truncate_and_remember_offset(0)`. Returns the yielded chunks, the final
writer state and whether the loop completed without error. -/
def genLoop (source : List (Str × Bytes)) :
    List Str → ZipWriterState → List Bytes × ZipWriterState × Bool
  | [], zw => ([], zw, true)
  | f :: rest, zw =>
    match zipRead source f with
    | none => ([], zw, false)
    | some data =>
      let zw1 := writestr zw (baseName f) data
      let rd := (zw1.fileobj.hidden_seek0).readAll
      let zw2 : ZipWriterState := { zw1 with fileobj := rd.2.truncate0 }
      let res := genLoop source rest zw2
      (rd.1 :: res.1, res.2)

/-- `Backend.generate_zip_ephemeral_chunks` (lines 232-262): the member loop,
then — only when it completed — the `with` block closes the `ZipFile`
(writing the central directory at offset `fileobj.tell()`), and the final
drained chunk is yielded. When a member was missing, the raised error
propagates out of the generator and the trailer chunk is never yielded.
Returns the chunks the caller received and whether the stream completed. -/
def generate_zip_ephemeral_chunks (source : List (Str × Bytes)) (filenames : List Str) :
    List Bytes × Bool :=
  match genLoop source filenames ⟨⟨[], 0, 0⟩, []⟩ with
  | (chunks, zw, true) =>
    let closed := zw.fileobj.write (encodeCentralDir zw.fileobj.tell zw.entries)
    (chunks ++ [(closed.hidden_seek0).readAll.1], true)
  | (chunks, _, false) => (chunks, false)

/-- Decoder for the abstract archive encoding: a run of member records
terminated by a trailer; `none` when the bytes are not a complete archive.
The fuel bounds the number of members (the byte length suffices). -/
def decodeMembers : Nat → Bytes → Option (List (Str × Bytes))
  | _, 1 :: _ => some []
  | fuel + 1, 0 :: nl :: rest =>
    if nl ≤ rest.length then
      match rest.drop nl with
      | dl :: rest2 =>
        if dl ≤ rest2.length then
          match decodeMembers fuel (rest2.drop dl) with
          | some tail => some (((rest.take nl).map Char.ofNat, rest2.take dl) :: tail)
          | none => none
        else none
      | [] => none
    else none
  | _, _ => none

/-- Decode a byte stream as a complete archive. -/
def decodeArchive (b : Bytes) : Option (List (Str × Bytes)) := decodeMembers b.length b

theorem decodeMembers_trailer (fuel : Nat) (x : Bytes) :
    decodeMembers fuel (1 :: x) = some [] := by
  cases fuel <;> rfl

theorem decodeMembers_nil (fuel : Nat) : decodeMembers fuel [] = none := by
  cases fuel <;> rfl

theorem map_ofNat_toNat (name : Str) :
    (name.map Char.toNat).map Char.ofNat = name := by
  induction name with
  | nil => rfl
  | cons c cs ih => simp [ih, Char.ofNat_toNat]

theorem decodeMembers_step (fuel : Nat) (name : Str) (data : Bytes) (t : Bytes) :
    decodeMembers (fuel + 1) (encodeMember name data ++ t) =
      (decodeMembers fuel t).map (fun tail => (name, data) :: tail) := by
  have hshape : encodeMember name data ++ t =
      0 :: name.length :: (name.map Char.toNat ++ data.length :: (data ++ t)) := by
    simp [encodeMember]
  rw [hshape]
  simp only [decodeMembers]
  rw [if_pos (by simp)]
  rw [show (name.map Char.toNat ++ data.length :: (data ++ t)).drop name.length =
      data.length :: (data ++ t) by
    rw [show name.length = (name.map Char.toNat).length by simp, List.drop_left]]
  rw [show (name.map Char.toNat ++ data.length :: (data ++ t)).take name.length =
      name.map Char.toNat by
    rw [show name.length = (name.map Char.toNat).length by simp, List.take_left]]
  dsimp only
  rw [if_pos (by simp)]
  rw [List.drop_left, List.take_left, map_ofNat_toNat]
  rcases hdec : decodeMembers fuel t with _ | tail <;> simp [hdec]

theorem decode_members_flatten (ms : List (Str × Bytes)) :
    ∀ fuel, ms.length ≤ fuel → ∀ x,
      decodeMembers fuel ((ms.map (fun m => encodeMember m.1 m.2)).flatten ++ 1 :: x) =
        some ms := by
  induction ms with
  | nil =>
    intro fuel _ x
    simpa using decodeMembers_trailer fuel x
  | cons m ms ih =>
    intro fuel hf x
    rcases fuel with _ | g
    · exact absurd hf (by simp)
    · rw [List.map_cons, List.flatten_cons, List.append_assoc, decodeMembers_step,
        ih g (by simpa using Nat.lt_succ_iff.1 (Nat.lt_of_lt_of_le (by simp) hf)) x]
      rfl

theorem decode_members_no_trailer (ms : List (Str × Bytes)) :
    ∀ fuel,
      decodeMembers fuel ((ms.map (fun m => encodeMember m.1 m.2)).flatten) = none := by
  induction ms with
  | nil => intro fuel; simpa using decodeMembers_nil fuel
  | cons m ms ih =>
    intro fuel
    rcases fuel with _ | g
    · rfl
    · rw [List.map_cons, List.flatten_cons, decodeMembers_step, ih g]
      rfl

theorem flatten_length_ge (ms : List (Str × Bytes)) :
    ms.length ≤ ((ms.map (fun m => encodeMember m.1 m.2)).flatten).length := by
  induction ms with
  | nil => simp
  | cons m ms ih =>
    simp only [List.map_cons, List.flatten_cons, List.length_append, List.length_cons]
    have : 1 ≤ (encodeMember m.1 m.2).length := by simp [encodeMember]
    omega

/-- The chunk the generator yields for one member: its encoded record. -/
def chunkOf (source : List (Str × Bytes)) (f : Str) : Bytes :=
  encodeMember (baseName f) ((zipRead source f).getD [])

/-- The directory records the member loop accumulates, with header offsets
(the `fileobj.tell()` values) starting at `d`. -/
def entriesOf (source : List (Str × Bytes)) : Nat → List Str → List (Str × Nat)
  | _, [] => []
  | d, f :: fs => (baseName f, d) :: entriesOf source (d + (chunkOf source f).length) fs

theorem genLoop_ok (source : List (Str × Bytes)) :
    ∀ (fs : List Str) (d : Nat) (es : List (Str × Nat)),
      (∀ f ∈ fs, (zipRead source f).isSome = true) →
      genLoop source fs ⟨⟨[], 0, d⟩, es⟩ =
        (fs.map (chunkOf source),
         ⟨⟨[], 0, d + ((fs.map (chunkOf source)).flatten).length⟩,
          es ++ entriesOf source d fs⟩, true)
  | [], d, es, _ => by simp [genLoop, entriesOf]
  | f :: fs, d, es, h => by
    obtain ⟨data, hdata⟩ := Option.isSome_iff_exists.1 (h f (by simp))
    have hrest : ∀ g ∈ fs, (zipRead source g).isSome = true :=
      fun g hg => h g (by simp [hg])
    have hchunk : chunkOf source f = encodeMember (baseName f) data := by
      simp [chunkOf, hdata]
    have ih := genLoop_ok source fs (d + (chunkOf source f).length)
      (es ++ [(baseName f, d)]) hrest
    rw [hchunk] at ih
    simp only [genLoop, hdata, writestr, NoSeekBytesIO.write, NoSeekBytesIO.tell,
      NoSeekBytesIO.hidden_seek0, NoSeekBytesIO.readAll, NoSeekBytesIO.truncate0,
      List.take_nil, List.drop_nil, List.nil_append, List.append_nil, List.drop_zero,
      Nat.zero_add, Nat.add_zero]
    rw [ih]
    simp only [List.map_cons, List.flatten_cons, List.length_append, entriesOf, hchunk,
      List.append_assoc, List.singleton_append, List.cons_append]
    simp [Nat.add_assoc]

theorem genLoop_fail (source : List (Str × Bytes)) :
    ∀ (fs : List Str) (d : Nat) (es : List (Str × Nat)),
      (∃ f ∈ fs, zipRead source f = none) →
      ∃ pre : List Str,
        (genLoop source fs ⟨⟨[], 0, d⟩, es⟩).1 = pre.map (chunkOf source) ∧
        (genLoop source fs ⟨⟨[], 0, d⟩, es⟩).2.2 = false
  | [], _, _, h => absurd h (by simp)
  | f :: fs, d, es, h => by
    rcases hdata : zipRead source f with _ | data
    · exact ⟨[], by simp [genLoop, hdata], by simp [genLoop, hdata]⟩
    · have hex : ∃ g ∈ fs, zipRead source g = none := by
        rcases h with ⟨g, hg, hn⟩
        rcases List.mem_cons.1 hg with rfl | hg2
        · rw [hdata] at hn
          exact absurd hn (by simp)
        · exact ⟨g, hg2, hn⟩
      have hchunk : chunkOf source f = encodeMember (baseName f) data := by
        simp [chunkOf, hdata]
      obtain ⟨pre, h1, h2⟩ := genLoop_fail source fs (d + (chunkOf source f).length)
        (es ++ [(baseName f, d)]) hex
      rw [hchunk] at h1 h2
      refine ⟨f :: pre, ?_, ?_⟩
      · simp only [genLoop, hdata, writestr, NoSeekBytesIO.write, NoSeekBytesIO.tell,
          NoSeekBytesIO.hidden_seek0, NoSeekBytesIO.readAll, NoSeekBytesIO.truncate0,
          List.take_nil, List.drop_nil, List.nil_append, List.append_nil, List.drop_zero,
          Nat.zero_add, Nat.add_zero]
        rw [h1]
        simp [hchunk]
      · simp only [genLoop, hdata, writestr, NoSeekBytesIO.write, NoSeekBytesIO.tell,
          NoSeekBytesIO.hidden_seek0, NoSeekBytesIO.readAll, NoSeekBytesIO.truncate0,
          List.take_nil, List.drop_nil, List.nil_append, List.append_nil, List.drop_zero,
          Nat.zero_add, Nat.add_zero]
        exact h2

theorem map_chunkOf_eq (source : List (Str × Bytes)) (M : List Str) :
    M.map (chunkOf source) =
      ((M.map (fun n => (baseName n, (zipRead source n).getD []))).map
        (fun m => encodeMember m.1 m.2)) := by
  rw [List.map_map]
  rfl

/-- C3 counterexample: for a member whose name carries a directory prefix,
the generator writes only the basename (`Path(name).name`) into the output
archive, so the produced member name set differs from the requested list
even though every requested member exists in the source. -/
theorem restream_basename_counterexample :
    zipRead [(str "d/a.v", [7])] (str "d/a.v") = some [7] ∧
    (generate_zip_ephemeral_chunks [(str "d/a.v", [7])] [str "d/a.v"]).2 = true ∧
    decodeArchive ((generate_zip_ephemeral_chunks
        [(str "d/a.v", [7])] [str "d/a.v"]).1).flatten =
      some [(str "a.v", [7])] ∧
    str "a.v" ≠ str "d/a.v" := by
  refine ⟨by decide, by decide, by decide, by decide⟩

/-- C3 (amended): for every member list all of whose names exist in the
source archive, consuming the whole chunk sequence succeeds and the
concatenated chunks decode to an archive whose members are, in order, the
**basenames** of the requested names with the corresponding source payloads
(so the member name set equals the requested set exactly whenever no
requested name contains a directory separator). -/
theorem restream_roundtrip (source : List (Str × Bytes)) (M : List Str)
    (h : ∀ n ∈ M, (zipRead source n).isSome = true) :
    (generate_zip_ephemeral_chunks source M).2 = true ∧
    decodeArchive ((generate_zip_ephemeral_chunks source M).1).flatten =
      some (M.map (fun n => (baseName n, (zipRead source n).getD []))) := by
  have hgen := genLoop_ok source M 0 [] h
  unfold generate_zip_ephemeral_chunks
  rw [hgen]
  refine ⟨rfl, ?_⟩
  simp only [ NoSeekBytesIO.write, NoSeekBytesIO.tell, NoSeekBytesIO.hidden_seek0,
    NoSeekBytesIO.readAll, List.take_nil, List.drop_nil, List.nil_append,
    List.append_nil, List.drop_zero, Nat.zero_add, Nat.add_zero, List.nil_append]
  rw [List.flatten_append]
  simp only [List.flatten_cons, List.flatten_nil, List.append_nil]
  rw [show ∀ cdStart entries, encodeCentralDir cdStart entries =
      1 :: (cdStart :: entries.length ::
        (entries.map (fun e => e.1.length :: (e.1.map Char.toNat ++ [e.2]))).flatten)
    from fun _ _ => rfl]
  unfold decodeArchive
  rw [map_chunkOf_eq]
  apply decode_members_flatten
  have h1 := flatten_length_ge (M.map (fun n => (baseName n, (zipRead source n).getD [])))
  simp only [List.length_append, List.length_map] at h1 ⊢
  omega

/-- Witness for `restream_roundtrip` at a concrete source archive and
member list. -/
theorem restream_roundtrip_witness :
    (generate_zip_ephemeral_chunks [(str "a.v", [7])] [str "a.v"]).2 = true ∧
    decodeArchive ((generate_zip_ephemeral_chunks [(str "a.v", [7])] [str "a.v"]).1).flatten =
      some ([str "a.v"].map
        (fun n => (baseName n, (zipRead [(str "a.v", [7])] n).getD []))) :=
  restream_roundtrip [(str "a.v", [7])] [str "a.v"] (by decide)

/-- C4: when some requested member is absent from the source archive, the
member-not-found error propagates to the caller: the stream ends in the
failed state before the trailer chunk is yielded, and the chunks received
never concatenate to a complete archive. -/
theorem restream_member_not_found (source : List (Str × Bytes)) (M : List Str)
    (h : ∃ n ∈ M, zipRead source n = none) :
    (generate_zip_ephemeral_chunks source M).2 = false ∧
    decodeArchive ((generate_zip_ephemeral_chunks source M).1).flatten = none := by
  obtain ⟨pre, h1, h2⟩ := genLoop_fail source M 0 [] h
  unfold generate_zip_ephemeral_chunks
  rcases hgl : genLoop source M ⟨⟨[], 0, 0⟩, []⟩ with ⟨chunks, zw, ok⟩
  rw [hgl] at h1 h2
  dsimp only at h1 h2
  subst h2
  dsimp only
  refine ⟨rfl, ?_⟩
  rw [h1, map_chunkOf_eq]
  exact decode_members_no_trailer _ _

/-- Witness for `restream_member_not_found` at a concrete source archive and
member list with one absent member. -/
theorem restream_member_not_found_witness :
    (generate_zip_ephemeral_chunks [(str "a.v", [7])] [str "a.v", str "missing.v"]).2 = false ∧
    decodeArchive ((generate_zip_ephemeral_chunks [(str "a.v", [7])]
        [str "a.v", str "missing.v"]).1).flatten = none :=
  restream_member_not_found [(str "a.v", [7])] [str "a.v", str "missing.v"]
    ⟨str "missing.v", by decide, by decide⟩

/-- Reference writer following the spec's words for the refinement claim:
the same archive written into a single ordinary in-memory buffer with no
per-member drain and reset — every member record is appended to one growing
buffer, each directory offset is the buffer length at write time, and the
directory (at offset = final buffer length) is appended at the end. -/
def referenceZipBytes (source : List (Str × Bytes)) (filenames : List Str) : Bytes :=
  let st := filenames.foldl
    (fun (acc : Bytes × List (Str × Nat)) f =>
      (acc.1 ++ encodeMember (baseName f) ((zipRead source f).getD []),
       acc.2 ++ [(baseName f, acc.1.length)]))
    ([], [])
  st.1 ++ encodeCentralDir st.1.length st.2

theorem referenceFold (source : List (Str × Bytes)) :
    ∀ (fs : List Str) (acc : Bytes) (ents : List (Str × Nat)),
      fs.foldl
        (fun (acc : Bytes × List (Str × Nat)) f =>
          (acc.1 ++ encodeMember (baseName f) ((zipRead source f).getD []),
           acc.2 ++ [(baseName f, acc.1.length)]))
        (acc, ents) =
      (acc ++ (fs.map (chunkOf source)).flatten,
       ents ++ entriesOf source acc.length fs)
  | [], acc, ents => by simp [entriesOf]
  | f :: fs, acc, ents => by
    rw [List.foldl_cons]
    rw [show (acc ++ encodeMember (baseName f) ((zipRead source f).getD []),
        ents ++ [(baseName f, acc.length)]) =
      (acc ++ chunkOf source f, ents ++ [(baseName f, acc.length)]) from rfl]
    rw [referenceFold source fs (acc ++ chunkOf source f) (ents ++ [(baseName f, acc.length)])]
    simp [entriesOf, List.append_assoc, Nat.add_comm]

/-- C10: the drain-and-reset streaming protocol loses and duplicates no
bytes — for members all present in the source, the concatenation of every
yielded chunk equals the byte stream the single-buffer reference writer
produces (including the directory offsets, which depend on
`tell() = deleted_offset + position`), and after the member loop
`tell()` equals the total number of bytes ever written, i.e. the length of
the concatenation of the yielded member chunks. -/
theorem restream_refines_single_buffer (source : List (Str × Bytes)) (M : List Str)
    (h : ∀ n ∈ M, (zipRead source n).isSome = true) :
    ((generate_zip_ephemeral_chunks source M).1).flatten = referenceZipBytes source M ∧
    (genLoop source M ⟨⟨[], 0, 0⟩, []⟩).2.1.fileobj.tell =
      (((genLoop source M ⟨⟨[], 0, 0⟩, []⟩).1).flatten).length := by
  have hgen := genLoop_ok source M 0 [] h
  constructor
  · unfold generate_zip_ephemeral_chunks
    rw [hgen]
    simp only [ NoSeekBytesIO.write, NoSeekBytesIO.tell, NoSeekBytesIO.hidden_seek0,
      NoSeekBytesIO.readAll, List.take_nil, List.drop_nil, List.nil_append,
      List.append_nil, List.drop_zero, Nat.zero_add, Nat.add_zero]
    rw [List.flatten_append]
    simp only [List.flatten_cons, List.flatten_nil, List.append_nil]
    unfold referenceZipBytes
    rw [referenceFold source M [] []]
    simp
  · rw [hgen]
    simp [ NoSeekBytesIO.tell]

/-- Witness for `restream_refines_single_buffer` at a concrete source
archive and member list. -/
theorem restream_refines_single_buffer_witness :
    ((generate_zip_ephemeral_chunks [(str "a.v", [7])] [str "a.v"]).1).flatten =
      referenceZipBytes [(str "a.v", [7])] [str "a.v"] ∧
    (genLoop [(str "a.v", [7])] [str "a.v"] ⟨⟨[], 0, 0⟩, []⟩).2.1.fileobj.tell =
      (((genLoop [(str "a.v", [7])] [str "a.v"] ⟨⟨[], 0, 0⟩, []⟩).1).flatten).length :=
  restream_refines_single_buffer [(str "a.v", [7])] [str "a.v"] (by decide)
